import Mathlib

/-!
# HFinder (`main.go`): a verification development

The program reads CIDR/IP identifiers, fetches a page for each one, caches it,
extracts the second column of every table row and prints the cells that look
like host names.  This file embeds the program's functions in Lean and proves
properties of them.

* Go strings are embedded as Lean `String`s (sequences of Unicode code points).
* The regular expression of `isValidHostname` is embedded as a syntax tree that
  mirrors the pattern text, together with an executable matcher.
* The file system, the network and standard output are embedded as an explicit
  `World` value that the functions thread through, plus an `Outcomes` record
  that fixes what the external operations of one run answer.
-/

namespace HFinder

/-! ## Regular expressions (`regexp.MatchString`) -/

/-- Syntax of the fragment of Go (RE2) regular expressions used by the program. -/
inductive Regex where
  /-- The anchor `^` without the multi-line flag: the beginning of the text. -/
  | beginText : Regex
  /-- The anchor `$` without the multi-line flag: the end of the text. -/
  | endText : Regex
  /-- A literal character, such as `-` or `\.`. -/
  | lit (c : Char) : Regex
  /-- A character class given by its ranges, such as `[a-zA-Z0-9]`. -/
  | cls (ranges : List (Char × Char)) : Regex
  /-- Concatenation `ab`. -/
  | cat (a b : Regex) : Regex
  /-- Kleene star `a*`. -/
  | star (a : Regex) : Regex
  /-- One or more `a+`. -/
  | plus (a : Regex) : Regex
  /-- Repetition with a lower bound only, `a{k,}`. -/
  | repeatMin (k : Nat) (a : Regex) : Regex
  /-- A capturing group `(a)`; captures play no part in `MatchString`. -/
  | group (a : Regex) : Regex

/-- Membership of a character in a class given by inclusive ranges. -/
def inRanges (ranges : List (Char × Char)) (c : Char) : Bool :=
  ranges.any fun r => decide (r.1 ≤ c) && decide (c ≤ r.2)

/-- All ways of iterating `step` at most `fuel` times, starting from `s`: the
remainders that are left. -/
def starIter (step : List Char → List (List Char)) : Nat → List Char → List (List Char)
  | 0, s => [s]
  | fuel + 1, s => s :: (step s).flatMap (starIter step fuel)

/-- All ways of iterating `step` exactly `k` times, starting from `s`. -/
def repeatIter (step : List Char → List (List Char)) : Nat → List Char → List (List Char)
  | 0, s => [s]
  | k + 1, s => (step s).flatMap (repeatIter step k)

/-- The matcher: `matchFrom total r s` lists the remainders `t` of `s` such that
`r` matches the part of `s` before `t`, when `s` is a suffix of a text of length
`total` (the position of `s` in the text is what `^` looks at).  An iteration of
`*` that consumes nothing never helps, so `|s| + 1` iterations are enough. -/
def matchFrom (total : Nat) : Regex → List Char → List (List Char)
  | .beginText, s => if s.length = total then [s] else []
  | .endText, s => if s.isEmpty then [s] else []
  | .lit c, s =>
    match s with
    | [] => []
    | x :: t => if x = c then [t] else []
  | .cls ranges, s =>
    match s with
    | [] => []
    | x :: t => if inRanges ranges x then [t] else []
  | .cat a b, s => (matchFrom total a s).flatMap (matchFrom total b)
  | .star a, s => starIter (matchFrom total a) (s.length + 1) s
  | .plus a, s =>
    (matchFrom total a s).flatMap fun t => starIter (matchFrom total a) (t.length + 1) t
  | .repeatMin k a, s =>
    (repeatIter (matchFrom total a) k s).flatMap fun t =>
      starIter (matchFrom total a) (t.length + 1) t
  | .group a, s => matchFrom total a s

/-- The function `regexp.MatchString` for a pattern that compiles: the text
contains a match of the pattern, starting at any position. -/
def MatchString (re : Regex) (text : String) : Bool :=
  text.data.tails.any fun s => !(matchFrom text.data.length re s).isEmpty

/-- The class `[a-zA-Z0-9]`. -/
def alnumClass : Regex := .cls [('a', 'z'), ('A', 'Z'), ('0', '9')]

/-- The class `[A-Za-z]`. -/
def alphaClass : Regex := .cls [('A', 'Z'), ('a', 'z')]

/-- The sub-pattern `([a-zA-Z0-9]+(-[a-zA-Z0-9]+)*\.)`. -/
def labelPattern : Regex :=
  .group (.cat (.plus alnumClass)
    (.cat (.star (.group (.cat (.lit '-') (.plus alnumClass)))) (.lit '.')))

/-- The sub-pattern `(([a-zA-Z0-9]+(-[a-zA-Z0-9]+)*\.)+[A-Za-z]{2,})`. -/
def domainPattern : Regex :=
  .group (.cat (.plus labelPattern) (.repeatMin 2 alphaClass))

/-- The pattern of `isValidHostname`:
`^(([a-zA-Z0-9]+(-[a-zA-Z0-9]+)*\.)+[A-Za-z]{2,})$`. -/
def validDomainPattern : Regex :=
  .cat .beginText (.cat domainPattern .endText)

/-- The function `isValidHostname`.  The pattern is a constant that compiles, so
the error branch of the source is never taken and the result is `matched`. -/
def isValidHostname (text : String) : Bool :=
  MatchString validDomainPattern text

/-- The words that a regular expression without anchors stands for. -/
def Matches : Regex → List Char → Prop
  | .beginText, m => m = []
  | .endText, m => m = []
  | .lit c, m => m = [c]
  | .cls ranges, m => ∃ x, inRanges ranges x = true ∧ m = [x]
  | .cat a b, m => ∃ u v, Matches a u ∧ Matches b v ∧ m = u ++ v
  | .star a, m => ∃ S : List (List Char), (∀ y ∈ S, Matches a y) ∧ m = S.flatten
  | .plus a, m =>
    ∃ S : List (List Char), 1 ≤ S.length ∧ (∀ y ∈ S, Matches a y) ∧ m = S.flatten
  | .repeatMin k a, m =>
    ∃ S : List (List Char), k ≤ S.length ∧ (∀ y ∈ S, Matches a y) ∧ m = S.flatten
  | .group a, m => Matches a m

/-- The expression contains neither `^` nor `$`. -/
def anchorFree : Regex → Bool
  | .beginText => false
  | .endText => false
  | .lit _ => true
  | .cls _ => true
  | .cat a b => anchorFree a && anchorFree b
  | .star a => anchorFree a
  | .plus a => anchorFree a
  | .repeatMin _ a => anchorFree a
  | .group a => anchorFree a

/-! ## The shape of a host name, in the words of the specification -/

/-- An ASCII letter. -/
def isAsciiLetter (c : Char) : Prop :=
  ('a' ≤ c ∧ c ≤ 'z') ∨ ('A' ≤ c ∧ c ≤ 'Z')

/-- An ASCII letter or digit. -/
def isAsciiAlnum (c : Char) : Prop :=
  isAsciiLetter c ∨ ('0' ≤ c ∧ c ≤ '9')

/-- A non-empty run of ASCII letters and digits. -/
def IsRun (r : List Char) : Prop :=
  r ≠ [] ∧ ∀ c ∈ r, isAsciiAlnum c

/-- A non-final label: one or more runs joined by single hyphens. -/
def IsLabel (l : List Char) : Prop :=
  ∃ runs : List (List Char), runs ≠ [] ∧ (∀ r ∈ runs, IsRun r) ∧
    l = List.intercalate ['-'] runs

/-- A final label: at least two ASCII letters. -/
def IsFinalLabel (t : List Char) : Prop :=
  2 ≤ t.length ∧ ∀ c ∈ t, isAsciiLetter c

/-- The shape of the specification: one or more labels, each followed by a
dot, then a final label, and nothing before or after. -/
def HostnameShape (text : List Char) : Prop :=
  ∃ (labels : List (List Char)) (final : List Char),
    labels ≠ [] ∧ (∀ l ∈ labels, IsLabel l) ∧ IsFinalLabel final ∧
    text = (labels.map fun l => l ++ ['.']).flatten ++ final

/-! ## Strings (`strings`, `fmt`) -/

/-- The function `unicode.IsSpace`: the code points with the White_Space property. -/
def isSpace (c : Char) : Bool :=
  let n := c.toNat
  (0x09 ≤ n && n ≤ 0x0D) || n == 0x20 || n == 0x85 || n == 0xA0 || n == 0x1680 ||
    (0x2000 ≤ n && n ≤ 0x200A) || n == 0x2028 || n == 0x2029 || n == 0x202F ||
    n == 0x205F || n == 0x3000

/-- The function `strings.TrimSpace`: leading and trailing white space removed. -/
def TrimSpace (s : String) : String :=
  ⟨((s.data.dropWhile isSpace).reverse.dropWhile isSpace).reverse⟩

/-- The function `strings.ReplaceAll` for a pattern and a replacement of one
character each, which is how the program calls it (`"/"` and `"_"`). -/
def ReplaceAll (s : String) (old new : Char) : String :=
  ⟨s.data.map fun c => if c = old then new else c⟩

/-! ## The parsed page (`goquery`) -/

/-- A parsed page, as far as `extractHostnames` looks at it: for every element
selected by `table tr`, in document order, the text of its `td:nth-child(2)`
selection. -/
abbrev Document := List String

/-- The function `extractHostnames`. -/
def extractHostnames (doc : Document) : List String :=
  doc.foldl (fun hostnames cell =>
    let text := TrimSpace cell
    if text ≠ "" && isValidHostname text then hostnames ++ [text] else hostnames) []

/-! ## The world: files, standard output and a trace of what was done -/

/-- The working directory: the content of each file that exists. -/
abbrev FileSystem := String → Option String

/-- What the program does to the outside, in the order in which it does it. -/
inductive Event where
  /-- The function `handleCIDR` was entered with this identifier. -/
  | call (cidr : String) : Event
  /-- The function `os.Stat` was called on this name. -/
  | stat (name : String) : Event
  /-- The function `fetchAndCacheHTML` was entered with this identifier: a fetch attempt. -/
  | fetch (ip : String) : Event
  /-- The function `ioutil.WriteFile` was called on this name. -/
  | write (name : String) : Event
  /-- The function `loadCachedHTML` was entered with this name. -/
  | load (name : String) : Event
  /-- The function `extractHostnames` returned this list. -/
  | extract (hostnames : List String) : Event
  /-- The function `os.Remove` was called on this name. -/
  | remove (name : String) : Event
deriving DecidableEq

/-- The state that the functions thread through. -/
structure World where
  /-- The files of the working directory. -/
  fs : FileSystem
  /-- The arguments of the `fmt.Println` calls made so far, oldest first. -/
  out : List String
  /-- The events so far, oldest first. -/
  trace : List Event

/-- What `client.Do` and `ioutil.ReadAll` answer. -/
inductive HttpResult where
  /-- The function `http.NewRequest` returns an error. -/
  | requestError (err : String) : HttpResult
  /-- The call `client.Do` returns an error. -/
  | transportError (err : String) : HttpResult
  /-- A response arrives, with its status code, its status text, and the body or
  the error of reading it. -/
  | response (statusCode : Nat) (status : String) (body : Except String String) : HttpResult

/-- What `ioutil.WriteFile` answers. -/
inductive WriteResult where
  /-- The file is written. -/
  | ok : WriteResult
  /-- The file cannot be opened for writing: nothing changes. -/
  | openFailed (err : String) : WriteResult
  /-- The file is created, and writing stops after `written`. -/
  | writeFailed (err : String) (written : String) : WriteResult

/-- The answers of the external operations during one run of `handleCIDR`.  Each
of them happens at most once in a run. -/
structure Outcomes where
  /-- The error of `os.Stat`, if it fails for another reason than the absence of
  the file (a name that is too long, a directory that cannot be searched). -/
  stat : Option String
  /-- The HTTP exchange of `fetchAndCacheHTML`. -/
  http : HttpResult
  /-- The call of `ioutil.WriteFile`. -/
  writeFile : WriteResult
  /-- The error of `os.Open`, if it fails for another reason than the absence of
  the file. -/
  openFile : Option String
  /-- The function `goquery.NewDocumentFromReader` on the content of the file. -/
  parse : String → Except String Document
  /-- The error of `os.Remove` on a file that exists, if it fails. -/
  remove : Option String

/-- The constant `http.StatusOK`. -/
def StatusOK : Nat := 200

/-- Appends an event to the trace. -/
def record (e : Event) (w : World) : World :=
  { w with trace := w.trace ++ [e] }

/-- The call `fmt.Println(message)`. -/
def println (message : String) (w : World) : World :=
  { w with out := w.out ++ [message] }

/-- The function `logMessage`; the global `silentMode` is a parameter. -/
def logMessage (silentMode : Bool) (message : String) (w : World) : World :=
  if !silentMode then println message w else w

/-- The function `fetchAndCacheHTML`. -/
def fetchAndCacheHTML (o : Outcomes) (silentMode : Bool) (ip : String) (w : World) :
    Except String String × World :=
  let w := logMessage silentMode "[INFO] Fetching page from the web..." (record (.fetch ip) w)
  match o.http with
  | .requestError err => (.error err, w)
  | .transportError err => (.error err, w)
  | .response statusCode status body =>
    if statusCode ≠ StatusOK then
      (.error ("failed to fetch IP info for " ++ ip ++ ": " ++ status), w)
    else
      match body with
      | .error err => (.error err, w)
      | .ok body =>
        let cacheFileName := "cache_" ++ ReplaceAll ip '/' '_' ++ ".html"
        let w := record (.write cacheFileName) w
        match o.writeFile with
        | .openFailed err => (.error err, w)
        | .writeFailed err written =>
          (.error err,
            { w with fs := fun n => if n = cacheFileName then some written else w.fs n })
        | .ok =>
          let w := { w with fs := fun n => if n = cacheFileName then some body else w.fs n }
          let w := logMessage silentMode
            ("[INFO] Page cached successfully: " ++ cacheFileName) w
          (.ok cacheFileName, w)

/-- The function `loadCachedHTML`. -/
def loadCachedHTML (o : Outcomes) (silentMode : Bool) (fileName : String) (w : World) :
    Except String Document × World :=
  let w := logMessage silentMode ("[INFO] Loading cached page: " ++ fileName ++ "...")
    (record (.load fileName) w)
  match o.openFile with
  | some err => (.error err, w)
  | none =>
    match w.fs fileName with
    | none => (.error ("open " ++ fileName ++ ": no such file or directory"), w)
    | some content =>
      match o.parse content with
      | .error err => (.error err, w)
      | .ok doc => (.ok doc, logMessage silentMode "[INFO] Cached page loaded successfully." w)

/-- The call `os.Remove(name)` with its error, if any. -/
def osRemove (o : Outcomes) (name : String) (w : World) : Option String × World :=
  let w := record (.remove name) w
  match w.fs name with
  | none => (some ("remove " ++ name ++ ": no such file or directory"), w)
  | some _ =>
    match o.remove with
    | some err => (some err, w)
    | none => (none, { w with fs := fun n => if n = name then none else w.fs n })

/-- The second half of `handleCIDR`, from the call of `loadCachedHTML` to the
end, once `cacheFileName` is settled. -/
def processCached (o : Outcomes) (silentMode : Bool) (cacheFileName : String) (w : World) :
    World :=
  match loadCachedHTML o silentMode cacheFileName w with
  | (.error err, w) => logMessage silentMode ("[ERROR] Failed to load cached page: " ++ err) w
  | (.ok doc, w) =>
    let hostnames := extractHostnames doc
    let w := record (.extract hostnames) w
    let w :=
      if hostnames.length = 0 then logMessage silentMode "[INFO] No hostnames found." w
      else hostnames.foldl (fun w hostname => println hostname w) w
    match osRemove o cacheFileName w with
    | (some err, w) =>
      logMessage silentMode
        ("[ERROR] Failed to delete cache file " ++ cacheFileName ++ ": " ++ err) w
    | (none, w) =>
      logMessage silentMode
        ("[INFO] Cache file " ++ cacheFileName ++ " deleted successfully.") w

/-- The errors of `os.Stat`, as far as `os.IsNotExist` tells them apart. -/
inductive StatError where
  /-- The file does not exist. -/
  | notExist : StatError
  /-- Any other error, with its text. -/
  | other (err : String) : StatError
deriving DecidableEq

/-- The error that `os.Stat(name)` returns, `none` for success: the error of the
outcomes if there is one, "not exist" if the file is absent. -/
def osStat (o : Outcomes) (name : String) (fs : FileSystem) : Option StatError :=
  match o.stat with
  | some err => some (.other err)
  | none =>
    match fs name with
    | none => some .notExist
    | some _ => none

/-- The function `os.IsNotExist`. -/
def IsNotExist : Option StatError → Bool
  | some .notExist => true
  | _ => false

/-- The function `handleCIDR`. -/
def handleCIDR (o : Outcomes) (silentMode : Bool) (cidr : String) (w : World) : World :=
  let w := logMessage silentMode ("[INFO] Processing CIDR: " ++ cidr) (record (.call cidr) w)
  let cacheFileName := "cache_" ++ ReplaceAll cidr '/' '_' ++ ".html"
  let w := record (.stat cacheFileName) w
  if IsNotExist (osStat o cacheFileName w.fs) then
    match fetchAndCacheHTML o silentMode cidr w with
    | (.error err, w) =>
      logMessage silentMode
        ("[ERROR] Failed to fetch and cache page for " ++ cidr ++ ": " ++ err) w
    | (.ok newCacheFile, w) => processCached o silentMode newCacheFile w
  else processCached o silentMode cacheFileName w

/-- What a `bufio.Scanner` yields: the lines, and the error that ended the scan,
if any. -/
structure Scanned where
  /-- The lines, without their line ends. -/
  lines : List String
  /-- The value of `scanner.Err()`. -/
  err : Option String

/-- The loop of `handleCIDRList`; `os i` are the outcomes met while the `i`-th
remaining line is processed. -/
def handleCIDRListLoop (os : Nat → Outcomes) (silentMode : Bool) :
    List String → World → World
  | [], w => w
  | line :: rest, w =>
    let cidr := TrimSpace line
    let w := if cidr ≠ "" then handleCIDR (os 0) silentMode cidr w else w
    handleCIDRListLoop (fun i => os (i + 1)) silentMode rest w

/-- The function `handleCIDRList`; `file` is what opening and scanning the file
at `filePath` gives. -/
def handleCIDRList (os : Nat → Outcomes) (silentMode : Bool) (filePath : String)
    (file : Except String Scanned) (w : World) : World :=
  let w := logMessage silentMode ("[INFO] Processing CIDR list from file: " ++ filePath) w
  match file with
  | .error err => logMessage silentMode ("[ERROR] Failed to open file: " ++ err) w
  | .ok scanner =>
    let w := handleCIDRListLoop os silentMode scanner.lines w
    match scanner.err with
    | some err => logMessage silentMode ("[ERROR] Error reading file: " ++ err) w
    | none => w

/-- The loop of `handleStdin`. -/
def handleStdinLoop (os : Nat → Outcomes) (silentMode : Bool) :
    List String → World → World
  | [], w => w
  | ip :: rest, w =>
    handleStdinLoop (fun i => os (i + 1)) silentMode rest (handleCIDR (os 0) silentMode ip w)

/-- The function `handleStdin`; `input` is what scanning standard input gives. -/
def handleStdin (os : Nat → Outcomes) (silentMode : Bool) (input : Scanned) (w : World) :
    World :=
  let w := handleStdinLoop os silentMode input.lines w
  match input.err with
  | some err => logMessage silentMode ("[ERROR] Error reading input: " ++ err) w
  | none => w

/-! ## Reading the world -/

/-- The characters written to standard output: every `fmt.Println` writes its
argument and a line feed. -/
def stdoutText (out : List String) : List Char :=
  out.flatMap fun message => message.data ++ ['\n']

/-- The lines of a text: the pieces that end in a line feed, and the piece after
the last line feed when it is not empty. -/
def linesOf : List Char → List (List Char)
  | [] => []
  | c :: cs =>
    if c = '\n' then [] :: linesOf cs
    else
      match linesOf cs with
      | [] => [[c]]
      | l :: ls => (c :: l) :: ls

/-- The lines on standard output. -/
def stdoutLines (out : List String) : List String :=
  (linesOf (stdoutText out)).map String.mk

/-- The number of fetch attempts in a trace. -/
def fetchAttempts (trace : List Event) : Nat :=
  trace.countP fun e => match e with
    | .fetch _ => true
    | _ => false

/-- The identifiers `handleCIDR` was called with, in order. -/
def calls (trace : List Event) : List String :=
  trace.filterMap fun e => match e with
    | .call cidr => some cidr
    | _ => none

/-- The host names that the calls of `extractHostnames` returned, in order. -/
def extracted (trace : List Event) : List String :=
  trace.flatMap fun e => match e with
    | .extract hostnames => hostnames
    | _ => []

/-- The file names that the trace touches (stat, write, load, remove). -/
def fileNames (trace : List Event) : List String :=
  trace.filterMap fun e => match e with
    | .stat name => some name
    | .write name => some name
    | .load name => some name
    | .remove name => some name
    | _ => none

/-- The world before a run: some files, nothing printed, nothing done. -/
def World.start (fs : FileSystem) : World :=
  { fs := fs, out := [], trace := [] }

/-- The text contains no line feed. -/
def noLineFeed (s : String) : Prop :=
  '\n' ∉ s.data

/-- The texts of an HTTP outcome that can end up in a message. -/
def HttpResult.errorTexts : HttpResult → List String
  | .requestError err => [err]
  | .transportError err => [err]
  | .response _ status (.error err) => [status, err]
  | .response _ status (.ok _) => [status]

/-- The error text of a write outcome, if it is a failure. -/
def WriteResult.errorTexts : WriteResult → List String
  | .ok => []
  | .openFailed err => [err]
  | .writeFailed err _ => [err]

/-- None of the error texts that the outcomes can report contains a line feed. -/
def SingleLineErrors (o : Outcomes) : Prop :=
  (∀ e ∈ o.http.errorTexts, noLineFeed e) ∧
  (∀ e ∈ o.writeFile.errorTexts, noLineFeed e) ∧
  (∀ e, o.openFile = some e → noLineFeed e) ∧
  (∀ content e, o.parse content = .error e → noLineFeed e) ∧
  (∀ e, o.remove = some e → noLineFeed e)

/-! ## Sample inputs -/

/-- A working directory without files. -/
def emptyFS : FileSystem := fun _ => none

/-- A working directory that holds a cache file for `1.2.3.0/24`. -/
def cachedFS : FileSystem :=
  fun n => if n = "cache_1.2.3.0_24.html" then some "<html></html>" else none

/-- A run in which everything succeeds and the page has one row with a host
name in its second cell. -/
def sampleOutcomes : Outcomes where
  stat := none
  http := .response 200 "200 OK" (.ok "<table><tr><td>1.2.3.4</td><td> example.com </td></tr></table>")
  writeFile := .ok
  openFile := none
  parse := fun _ => .ok [" example.com "]
  remove := none

/-- A run in which the server answers 404. -/
def notFoundOutcomes : Outcomes where
  stat := none
  http := .response 404 "404 Not Found" (.ok "")
  writeFile := .ok
  openFile := none
  parse := fun _ => .ok []
  remove := none

/-- A run in which the cache file cannot be opened for reading. -/
def unreadableOutcomes : Outcomes where
  stat := none
  http := .response 200 "200 OK" (.ok "")
  writeFile := .ok
  openFile := some "open cache_1.2.3.0_24.html: permission denied"
  parse := fun _ => .ok []
  remove := none

/-- An identifier of 300 characters; its cache file name has 311. -/
def longIdentifier : String := ⟨List.replicate 300 'a'⟩

/-- A run for `longIdentifier`: the cache file name is longer than a file name
may be, and `os.Stat` and `os.Open` fail with "file name too long". -/
def longNameOutcomes : Outcomes where
  stat := some ("stat cache_" ++ longIdentifier ++ ".html: file name too long")
  http := .response 200 "200 OK" (.ok "")
  writeFile := .openFailed ("open cache_" ++ longIdentifier ++ ".html: file name too long")
  openFile := some ("open cache_" ++ longIdentifier ++ ".html: file name too long")
  parse := fun _ => .ok []
  remove := none

/-- A run for an identifier with a line feed in it: `http.NewRequest` rejects
the URL. -/
def badURLOutcomes : Outcomes where
  stat := none
  http := .requestError
    "parse \"https://ipinfo.io/ips/x\\na.bc\": net/url: invalid control character in URL"
  writeFile := .ok
  openFile := none
  parse := fun _ => .ok []
  remove := none

/-! ## Theorems about the matcher -/

theorem starIter_self (step : List Char → List (List Char)) (fuel : Nat) (s : List Char) :
    s ∈ starIter step fuel s := by
  cases fuel <;> simp [starIter]

/-- Whatever the iteration leaves was reached by consuming a list of words of `L`. -/
theorem starIter_sound {L : List Char → Prop} {step : List Char → List (List Char)}
    (hs : ∀ s t, t ∈ step s → ∃ m, L m ∧ s = m ++ t) :
    ∀ (fuel : Nat) (s t : List Char), t ∈ starIter step fuel s →
      ∃ S : List (List Char), (∀ y ∈ S, L y) ∧ s = S.flatten ++ t := by
  intro fuel
  induction fuel with
  | zero =>
    intro s t h
    simp only [starIter, List.mem_singleton] at h
    exact ⟨[], by simp, by simp [h]⟩
  | succ f ih =>
    intro s t h
    simp only [starIter, List.mem_cons, List.mem_flatMap] at h
    rcases h with h | ⟨u, hu, ht⟩
    · exact ⟨[], by simp, by simp [h]⟩
    · obtain ⟨m, hm, rfl⟩ := hs s u hu
      obtain ⟨S, hS, rfl⟩ := ih u t ht
      refine ⟨m :: S, ?_, by simp⟩
      intro y hy
      rcases List.mem_cons.1 hy with rfl | hy
      · exact hm
      · exact hS y hy

/-- Consuming non-empty words of `L` one after the other is found by the
iteration, when the fuel covers their total length. -/
theorem starIter_complete_nonempty {L : List Char → Prop}
    {step : List Char → List (List Char)}
    (hc : ∀ m t, L m → t ∈ step (m ++ t)) :
    ∀ (S : List (List Char)), (∀ y ∈ S, L y ∧ y ≠ []) →
      ∀ (fuel : Nat) (t : List Char), S.flatten.length ≤ fuel →
        t ∈ starIter step fuel (S.flatten ++ t) := by
  intro S
  induction S with
  | nil =>
    intro _ fuel t _
    simpa using starIter_self step fuel t
  | cons y S ih =>
    intro hS fuel t hfuel
    have hy := hS y (List.mem_cons_self _ _)
    have hylen : 1 ≤ y.length := by
      cases y with
      | nil => exact absurd rfl hy.2
      | cons a l => simp
    simp only [List.flatten_cons, List.length_append] at hfuel
    cases fuel with
    | zero => omega
    | succ f =>
      simp only [starIter, List.flatten_cons, List.append_assoc, List.mem_cons,
        List.mem_flatMap]
      right
      refine ⟨S.flatten ++ t, hc y _ hy.1, ?_⟩
      exact ih (fun z hz => hS z (List.mem_cons_of_mem _ hz)) f t (by omega)

/-- The same for words that may be empty: the empty ones are left out. -/
theorem starIter_complete {L : List Char → Prop} {step : List Char → List (List Char)}
    (hc : ∀ m t, L m → t ∈ step (m ++ t))
    (S : List (List Char)) (hS : ∀ y ∈ S, L y) (fuel : Nat) (t : List Char)
    (hfuel : S.flatten.length ≤ fuel) :
    t ∈ starIter step fuel (S.flatten ++ t) := by
  have hflat : (S.filter fun l => l ≠ []).flatten = S.flatten := List.flatten_filter_ne_nil
  have := starIter_complete_nonempty hc (S.filter fun l => l ≠ [])
    (fun y hy => by
      have h := List.mem_filter.1 hy
      exact ⟨hS y h.1, by simpa using h.2⟩)
    fuel t (by rw [hflat]; exact hfuel)
  rwa [hflat] at this

/-- The remainders of `k` iterations are reached by consuming `k` words of `L`. -/
theorem mem_repeatIter {L : List Char → Prop} {step : List Char → List (List Char)}
    (hs : ∀ s t, t ∈ step s ↔ ∃ m, L m ∧ s = m ++ t) :
    ∀ (k : Nat) (s t : List Char), t ∈ repeatIter step k s ↔
      ∃ S : List (List Char), S.length = k ∧ (∀ y ∈ S, L y) ∧ s = S.flatten ++ t := by
  intro k
  induction k with
  | zero =>
    intro s t
    simp only [repeatIter, List.mem_singleton, List.length_eq_zero]
    constructor
    · rintro rfl
      exact ⟨[], rfl, by simp, by simp⟩
    · rintro ⟨S, rfl, -, h⟩
      simpa using h.symm
  | succ k ih =>
    intro s t
    simp only [repeatIter, List.mem_flatMap]
    constructor
    · rintro ⟨u, hu, ht⟩
      obtain ⟨m, hm, rfl⟩ := (hs s u).1 hu
      obtain ⟨S, hlen, hS, rfl⟩ := (ih u t).1 ht
      refine ⟨m :: S, by simp [hlen], ?_, by simp⟩
      intro y hy
      rcases List.mem_cons.1 hy with rfl | hy
      · exact hm
      · exact hS y hy
    · rintro ⟨S, hlen, hS, rfl⟩
      cases S with
      | nil => simp at hlen
      | cons y S =>
        refine ⟨S.flatten ++ t, (hs _ _).2 ⟨y, hS y (List.mem_cons_self _ _), by simp⟩, ?_⟩
        exact (ih _ t).2 ⟨S, by simpa using hlen,
          fun z hz => hS z (List.mem_cons_of_mem _ hz), rfl⟩

/-- The matcher is sound and complete for expressions without anchors: `t` is a
remainder of `s` exactly when the part of `s` before `t` is a word of `r`. -/
theorem mem_matchFrom (total : Nat) :
    ∀ (r : Regex), anchorFree r = true → ∀ (s t : List Char),
      t ∈ matchFrom total r s ↔ ∃ m, Matches r m ∧ s = m ++ t := by
  intro r
  induction r with
  | beginText => intro h; simp [anchorFree] at h
  | endText => intro h; simp [anchorFree] at h
  | lit c =>
    intro _ s t
    cases s with
    | nil => simp [matchFrom, Matches]
    | cons x l =>
      simp only [matchFrom, Matches]
      constructor
      · intro h
        split at h
        · rename_i hx
          simp only [List.mem_singleton] at h
          exact ⟨[c], rfl, by simp [hx, h]⟩
        · simp at h
      · rintro ⟨m, rfl, h⟩
        simp only [List.singleton_append, List.cons.injEq] at h
        simp [h.1, h.2]
  | cls ranges =>
    intro _ s t
    cases s with
    | nil =>
      simp only [matchFrom, Matches]
      constructor
      · intro h
        simp at h
      · rintro ⟨m, ⟨x, -, rfl⟩, h⟩
        simp at h
    | cons x l =>
      simp only [matchFrom, Matches]
      constructor
      · intro h
        split at h
        · rename_i hx
          simp only [List.mem_singleton] at h
          exact ⟨[x], ⟨x, hx, rfl⟩, by simp [h]⟩
        · simp at h
      · rintro ⟨m, ⟨y, hy, rfl⟩, h⟩
        simp only [List.singleton_append, List.cons.injEq] at h
        simp [h.1, h.2, hy]
  | cat a b iha ihb =>
    intro h s t
    simp only [anchorFree, Bool.and_eq_true] at h
    simp only [matchFrom, Matches, List.mem_flatMap]
    constructor
    · rintro ⟨u, hu, ht⟩
      obtain ⟨m₁, hm₁, rfl⟩ := (iha h.1 s u).1 hu
      obtain ⟨m₂, hm₂, rfl⟩ := (ihb h.2 u t).1 ht
      exact ⟨m₁ ++ m₂, ⟨m₁, m₂, hm₁, hm₂, rfl⟩, by simp⟩
    · rintro ⟨m, ⟨m₁, m₂, hm₁, hm₂, rfl⟩, rfl⟩
      refine ⟨m₂ ++ t, (iha h.1 _ _).2 ⟨m₁, hm₁, by simp⟩, (ihb h.2 _ _).2 ⟨m₂, hm₂, rfl⟩⟩
  | star a iha =>
    intro h s t
    simp only [anchorFree] at h
    simp only [matchFrom, Matches]
    constructor
    · intro ht
      obtain ⟨S, hS, hs⟩ := starIter_sound (fun s t h' => (iha h s t).1 h') _ s t ht
      exact ⟨S.flatten, ⟨S, hS, rfl⟩, hs⟩
    · rintro ⟨m, ⟨S, hS, rfl⟩, rfl⟩
      exact starIter_complete (fun m t hm => (iha h _ t).2 ⟨m, hm, rfl⟩) S hS _ t
        (by simp only [List.length_append]; omega)
  | plus a iha =>
    intro h s t
    simp only [anchorFree] at h
    simp only [matchFrom, Matches, List.mem_flatMap]
    constructor
    · rintro ⟨u, hu, ht⟩
      obtain ⟨m, hm, rfl⟩ := (iha h s u).1 hu
      obtain ⟨S, hS, rfl⟩ := starIter_sound (fun s t h' => (iha h s t).1 h') _ u t ht
      refine ⟨(m :: S).flatten, ⟨m :: S, by simp, ?_, rfl⟩, by simp⟩
      intro y hy
      rcases List.mem_cons.1 hy with rfl | hy
      · exact hm
      · exact hS y hy
    · rintro ⟨m, ⟨S, hlen, hS, rfl⟩, rfl⟩
      cases S with
      | nil => simp at hlen
      | cons y S =>
        refine ⟨S.flatten ++ t, (iha h _ _).2 ⟨y, hS y (List.mem_cons_self _ _), by simp⟩, ?_⟩
        exact starIter_complete (fun m t hm => (iha h _ t).2 ⟨m, hm, rfl⟩) S
          (fun z hz => hS z (List.mem_cons_of_mem _ hz)) _ t
          (by simp only [List.length_append]; omega)
  | repeatMin k a iha =>
    intro h s t
    simp only [anchorFree] at h
    simp only [matchFrom, Matches, List.mem_flatMap]
    constructor
    · rintro ⟨u, hu, ht⟩
      obtain ⟨S₁, hlen, hS₁, rfl⟩ := (mem_repeatIter (iha h) k s u).1 hu
      obtain ⟨S₂, hS₂, rfl⟩ := starIter_sound (fun s t h' => (iha h s t).1 h') _ u t ht
      refine ⟨(S₁ ++ S₂).flatten, ⟨S₁ ++ S₂, by simp [hlen], ?_, rfl⟩, by simp⟩
      intro y hy
      rcases List.mem_append.1 hy with hy | hy
      · exact hS₁ y hy
      · exact hS₂ y hy
    · rintro ⟨m, ⟨S, hlen, hS, rfl⟩, rfl⟩
      refine ⟨(S.drop k).flatten ++ t, ?_, ?_⟩
      · refine (mem_repeatIter (iha h) k _ _).2 ⟨S.take k, by simp [hlen],
          fun y hy => hS y (List.mem_of_mem_take hy), ?_⟩
        rw [← List.append_assoc, ← List.flatten_append, List.take_append_drop]
      · exact starIter_complete (fun m t hm => (iha h _ t).2 ⟨m, hm, rfl⟩) (S.drop k)
          (fun z hz => hS z (List.mem_of_mem_drop hz)) _ t
          (by simp only [List.length_append]; omega)
  | group a iha =>
    intro h s t
    simp only [anchorFree] at h
    simp only [matchFrom, Matches]
    exact iha h s t

/-- A pattern `^r$` with `r` free of anchors is found in a text exactly when
`r` stands for the whole text. -/
theorem MatchString_anchored (r : Regex) (hr : anchorFree r = true) (text : String) :
    MatchString (.cat .beginText (.cat r .endText)) text = true ↔ Matches r text.data := by
  simp only [MatchString, List.any_eq_true, List.mem_tails, Bool.not_eq_true',
    List.isEmpty_eq_false, matchFrom]
  constructor
  · rintro ⟨s, hsuf, hne⟩
    obtain ⟨t, ht⟩ := List.exists_mem_of_ne_nil _ hne
    simp only [List.mem_flatMap] at ht
    obtain ⟨u, hu, v, hv, ht⟩ := ht
    split at hu
    · rename_i hlen
      simp only [List.mem_singleton] at hu
      subst hu
      have hst : u = text.data := hsuf.eq_of_length hlen
      subst hst
      split at ht
      · rename_i hv'
        obtain ⟨m, hm, hs⟩ := (mem_matchFrom _ r hr _ v).1 hv
        have : v = [] := by simpa using hv'
        subst this
        simp only [List.append_nil] at hs
        rw [hs]
        exact hm
      · simp at ht
    · simp at hu
  · intro hm
    refine ⟨text.data, List.suffix_refl _, ?_⟩
    apply List.ne_nil_of_mem (a := [])
    simp only [List.mem_flatMap]
    refine ⟨text.data, by simp, [], (mem_matchFrom _ r hr _ _).2 ⟨text.data, hm, by simp⟩, by simp⟩

/-! ## The pattern of `isValidHostname` and the shape of the specification -/

theorem inRanges_alnum (c : Char) :
    inRanges [('a', 'z'), ('A', 'Z'), ('0', '9')] c = true ↔ isAsciiAlnum c := by
  simp [inRanges, isAsciiAlnum, isAsciiLetter, or_assoc]

theorem inRanges_alpha (c : Char) :
    inRanges [('A', 'Z'), ('a', 'z')] c = true ↔ isAsciiLetter c := by
  simp [inRanges, isAsciiLetter, or_comm]

theorem exists_map_of_forall_exists {α β : Type} {Q : α → Prop} {f : α → β} :
    ∀ (S : List β), (∀ y ∈ S, ∃ v, Q v ∧ y = f v) →
      ∃ R : List α, (∀ v ∈ R, Q v) ∧ S = R.map f := by
  intro S
  induction S with
  | nil => intro _; exact ⟨[], by simp, rfl⟩
  | cons y S ih =>
    intro h
    obtain ⟨v, hv, rfl⟩ := h y (List.mem_cons_self _ _)
    obtain ⟨R, hR, rfl⟩ := ih fun z hz => h z (List.mem_cons_of_mem _ hz)
    refine ⟨v :: R, ?_, rfl⟩
    intro w hw
    rcases List.mem_cons.1 hw with rfl | hw
    · exact hv
    · exact hR w hw

theorem flatten_map_single (m : List Char) : (m.map fun c => [c]).flatten = m := by
  induction m with
  | nil => rfl
  | cons c m ih => simp [ih]

/-- A repetition of a one-character expression stands for the words of at least
`k` characters, all of them in the class. -/
theorem repeat_singles {P : Char → Prop} (k : Nat) (m : List Char) :
    (∃ S : List (List Char), k ≤ S.length ∧ (∀ y ∈ S, ∃ x, P x ∧ y = [x]) ∧ m = S.flatten) ↔
      k ≤ m.length ∧ ∀ c ∈ m, P c := by
  constructor
  · rintro ⟨S, hlen, hS, rfl⟩
    obtain ⟨R, hR, rfl⟩ := exists_map_of_forall_exists S hS
    rw [flatten_map_single]
    exact ⟨by simpa using hlen, hR⟩
  · rintro ⟨hlen, hm⟩
    refine ⟨m.map fun c => [c], by simpa using hlen, ?_, (flatten_map_single m).symm⟩
    intro y hy
    obtain ⟨c, hc, rfl⟩ := List.mem_map.1 hy
    exact ⟨c, hm c hc, rfl⟩

theorem matches_plus_alnum (r : List Char) : Matches (.plus alnumClass) r ↔ IsRun r := by
  simp only [Matches, alnumClass, inRanges_alnum]
  rw [repeat_singles 1 r]
  simp only [IsRun]
  constructor
  · rintro ⟨hlen, h⟩
    refine ⟨?_, h⟩
    rintro rfl
    simp at hlen
  · rintro ⟨hne, h⟩
    refine ⟨?_, h⟩
    cases r with
    | nil => exact absurd rfl hne
    | cons a l => simp

theorem matches_final (t : List Char) :
    Matches (.repeatMin 2 alphaClass) t ↔ IsFinalLabel t := by
  simp only [Matches, alphaClass, inRanges_alpha]
  rw [repeat_singles 2 t]
  rfl

theorem intercalate_cons (sep r₀ : List Char) (rs : List (List Char)) :
    List.intercalate sep (r₀ :: rs) = r₀ ++ (rs.map fun r => sep ++ r).flatten := by
  induction rs generalizing r₀ with
  | nil => simp [List.intercalate]
  | cons r rs ih =>
    have := ih r
    simp only [List.intercalate] at this ⊢
    simp [List.intersperse, this]

theorem matches_label (y : List Char) :
    Matches labelPattern y ↔ ∃ l, IsLabel l ∧ y = l ++ ['.'] := by
  simp only [labelPattern, Matches]
  constructor
  · rintro ⟨u, v, hu, ⟨u', v', ⟨S, hS, rfl⟩, rfl, rfl⟩, rfl⟩
    have hS' : ∀ y ∈ S, ∃ r, IsRun r ∧ y = ['-'] ++ r := by
      intro y hy
      obtain ⟨a, b, rfl, hb, rfl⟩ := hS y hy
      exact ⟨b, (matches_plus_alnum b).1 hb, rfl⟩
    obtain ⟨R, hR, rfl⟩ := exists_map_of_forall_exists S hS'
    refine ⟨List.intercalate ['-'] (u :: R), ⟨u :: R, by simp, ?_, rfl⟩, ?_⟩
    · intro r hr
      rcases List.mem_cons.1 hr with rfl | hr
      · exact (matches_plus_alnum _).1 hu
      · exact hR r hr
    · rw [intercalate_cons]
      simp
  · rintro ⟨l, ⟨runs, hne, hruns, rfl⟩, rfl⟩
    cases runs with
    | nil => exact absurd rfl hne
    | cons r₀ rs =>
      refine ⟨r₀, (rs.map fun r => ['-'] ++ r).flatten ++ ['.'],
        (matches_plus_alnum _).2 (hruns r₀ (List.mem_cons_self _ _)),
        ⟨_, ['.'], ⟨rs.map fun r => ['-'] ++ r, ?_, rfl⟩, rfl, rfl⟩, ?_⟩
      · intro y hy
        obtain ⟨r, hr, rfl⟩ := List.mem_map.1 hy
        exact ⟨['-'], r, rfl,
          (matches_plus_alnum _).2 (hruns r (List.mem_cons_of_mem _ hr)), rfl⟩
      · rw [intercalate_cons]
        simp

theorem matches_domainPattern (m : List Char) :
    Matches domainPattern m ↔ HostnameShape m := by
  simp only [domainPattern, Matches, HostnameShape]
  constructor
  · rintro ⟨u, v, ⟨S, hlen, hS, rfl⟩, hv, rfl⟩
    obtain ⟨labels, hlabels, rfl⟩ :=
      exists_map_of_forall_exists S fun y hy => (matches_label y).1 (hS y hy)
    refine ⟨labels, v, ?_, hlabels, (matches_final v).1 hv, rfl⟩
    rintro rfl
    simp at hlen
  · rintro ⟨labels, final, hne, hlabels, hfinal, rfl⟩
    refine ⟨_, final, ⟨labels.map fun l => l ++ ['.'], ?_, ?_, rfl⟩,
      (matches_final final).2 hfinal, rfl⟩
    · cases labels with
      | nil => exact absurd rfl hne
      | cons a l => simp
    · intro y hy
      obtain ⟨l, hl, rfl⟩ := List.mem_map.1 hy
      exact (matches_label _).2 ⟨l, hlabels l hl, rfl⟩

/-- The characterisation of `isValidHostname` that the other results use. -/
theorem validHostname_shape (text : String) :
    isValidHostname text = true ↔ HostnameShape text.data := by
  unfold isValidHostname validDomainPattern
  rw [MatchString_anchored domainPattern (by decide) text]
  exact matches_domainPattern text.data


/-! ## The world -/

@[simp] theorem record_fs (e : Event) (w : World) : (record e w).fs = w.fs := rfl
@[simp] theorem record_out (e : Event) (w : World) : (record e w).out = w.out := rfl
@[simp] theorem record_trace (e : Event) (w : World) : (record e w).trace = w.trace ++ [e] := rfl
@[simp] theorem println_fs (m : String) (w : World) : (println m w).fs = w.fs := rfl
@[simp] theorem println_out (m : String) (w : World) : (println m w).out = w.out ++ [m] := rfl
@[simp] theorem println_trace (m : String) (w : World) : (println m w).trace = w.trace := rfl
@[simp] theorem logMessage_fs (s : Bool) (m : String) (w : World) :
    (logMessage s m w).fs = w.fs := by
  cases s <;> rfl
@[simp] theorem logMessage_trace (s : Bool) (m : String) (w : World) :
    (logMessage s m w).trace = w.trace := by
  cases s <;> rfl
@[simp] theorem logMessage_out (s : Bool) (m : String) (w : World) :
    (logMessage s m w).out = if s then w.out else w.out ++ [m] := by
  cases s <;> rfl

theorem printAll (hs : List String) (w : World) :
    hs.foldl (fun w hostname => println hostname w) w = { w with out := w.out ++ hs } := by
  induction hs generalizing w with
  | nil => simp
  | cons h hs ih => rw [List.foldl_cons, ih]; simp [println]

/-- The shape of every run of `processCached` from a given file system: the final
file system and the events do not depend on `silentMode` or on what was printed
before; a silent run prints the host names `hs`, a non-silent run prints log
messages `pre`, then `hs`, then log messages `post`. -/
theorem processCached_master (o : Outcomes) (name : String) (fs : FileSystem) :
    ∃ (fs' : FileSystem) (evs : List Event) (pre hs post : List String),
      (∀ (s : Bool) (out : List String) (trace : List Event),
        (processCached o s name ⟨fs, out, trace⟩).fs = fs' ∧
        (processCached o s name ⟨fs, out, trace⟩).out =
          out ++ (if s then hs else pre ++ hs ++ post) ∧
        (processCached o s name ⟨fs, out, trace⟩).trace = trace ++ evs) ∧
      calls evs = [] ∧ fetchAttempts evs = 0 ∧ (∀ n ∈ fileNames evs, n = name) ∧
      extracted evs = hs ∧ (∃ doc, hs = extractHostnames doc) ∧
      (∀ m ∈ pre ++ post, '[' ∈ m.data) ∧
      (noLineFeed name → SingleLineErrors o → ∀ m ∈ pre ++ post, noLineFeed m) := by
  have b1 : '[' ∈ "[INFO] Loading cached page: ".data := by decide
  have b2 : '[' ∈ "[ERROR] Failed to load cached page: ".data := by decide
  have n1 : '\n' ∉ "[INFO] Loading cached page: ".data := by decide
  have n2 : '\n' ∉ "[ERROR] Failed to load cached page: ".data := by decide
  have n3 : '\n' ∉ "...".data := by decide
  have n4 : '\n' ∉ "open ".data := by decide
  have n5 : '\n' ∉ ": no such file or directory".data := by decide
  cases hop : o.openFile with
  | some e =>
    refine ⟨fs, [.load name], ["[INFO] Loading cached page: " ++ name ++ "...",
      "[ERROR] Failed to load cached page: " ++ e], [], [], ?_, ?_, ?_, ?_, ?_, ?_, ?_, ?_⟩
    · intro s out trace
      cases s <;> simp [processCached, loadCachedHTML, hop]
    · simp [calls]
    · simp [fetchAttempts]
    · simp [fileNames]
    · simp [extracted]
    · exact ⟨[], rfl⟩
    · simp [String.data_append, b1, b2]
    · intro hn ho
      have he := ho.2.2.1 e hop
      simp only [noLineFeed] at hn he
      simp [noLineFeed, String.data_append, n1, n2, n3, hn, he]
  | none =>
    cases hfs : fs name with
    | none =>
      refine ⟨fs, [.load name], ["[INFO] Loading cached page: " ++ name ++ "...",
        "[ERROR] Failed to load cached page: " ++
          ("open " ++ name ++ ": no such file or directory")], [], [], ?_, ?_, ?_, ?_, ?_, ?_, ?_, ?_⟩
      · intro s out trace
        cases s <;> simp [processCached, loadCachedHTML, hop, hfs]
      · simp [calls]
      · simp [fetchAttempts]
      · simp [fileNames]
      · simp [extracted]
      · exact ⟨[], rfl⟩
      · simp [String.data_append, b1, b2]
      · intro hn ho
        simp only [noLineFeed] at hn
        simp [noLineFeed, String.data_append, n1, n2, n3, n4, n5, hn]
    | some content =>
      cases hpa : o.parse content with
      | error e =>
        refine ⟨fs, [.load name], ["[INFO] Loading cached page: " ++ name ++ "...",
          "[ERROR] Failed to load cached page: " ++ e], [], [], ?_, ?_, ?_, ?_, ?_, ?_, ?_, ?_⟩
        · intro s out trace
          cases s <;> simp [processCached, loadCachedHTML, hfs, hop, hpa]
        · simp [calls]
        · simp [fetchAttempts]
        · simp [fileNames]
        · simp [extracted]
        · exact ⟨[], rfl⟩
        · simp [String.data_append, b1, b2]
        · intro hn ho
          have he := ho.2.2.2.1 content e hpa
          simp only [noLineFeed] at hn he
          simp [noLineFeed, String.data_append, n1, n2, n3, hn, he]
      | ok doc =>
        cases hrm : o.remove with
        | some e =>
          refine ⟨fs, [.load name, .extract (extractHostnames doc), .remove name],
            ["[INFO] Loading cached page: " ++ name ++ "...",
              "[INFO] Cached page loaded successfully."] ++
              (if extractHostnames doc = [] then ["[INFO] No hostnames found."] else []),
            extractHostnames doc,
            ["[ERROR] Failed to delete cache file " ++ name ++ ": " ++ e],
            ?_, ?_, ?_, ?_, ?_, ?_, ?_, ?_⟩
          · intro s out trace
            by_cases hhs : extractHostnames doc = []
            · cases s <;>
                simp [processCached, loadCachedHTML, osRemove, printAll, hfs, hop, hpa, hrm, hhs]
            · cases s <;>
                simp [processCached, loadCachedHTML, osRemove, printAll, hfs, hop, hpa, hrm, hhs]
          · simp [calls]
          · simp [fetchAttempts]
          · simp [fileNames]
          · simp [extracted]
          · exact ⟨doc, rfl⟩
          · intro m hm
            simp only [List.mem_append, List.mem_cons, List.mem_singleton, List.not_mem_nil,
              or_false] at hm
            rcases hm with (((rfl | rfl) | hm) | rfl)
            · simp [String.data_append, b1]
            · decide
            · split at hm
              · simp only [List.mem_singleton] at hm
                subst hm
                decide
              · simp at hm
            · simp only [String.data_append, List.mem_append]
              exact Or.inl (Or.inl (Or.inl (by decide)))
          · intro hn ho m hm
            have he := ho.2.2.2.2 e hrm
            simp only [noLineFeed] at hn he ⊢
            simp only [List.mem_append, List.mem_cons, List.mem_singleton, List.not_mem_nil,
              or_false] at hm
            rcases hm with (((rfl | rfl) | hm) | rfl)
            · simp [String.data_append, n1, n3, hn]
            · decide
            · split at hm
              · simp only [List.mem_singleton] at hm
                subst hm
                decide
              · simp at hm
            · have n6 : '\n' ∉ "[ERROR] Failed to delete cache file ".data := by decide
              have n7 : '\n' ∉ ": ".data := by decide
              simp [String.data_append, n6, n7, hn, he]
        | none =>
          refine ⟨fun n => if n = name then none else fs n,
            [.load name, .extract (extractHostnames doc), .remove name],
            ["[INFO] Loading cached page: " ++ name ++ "...",
              "[INFO] Cached page loaded successfully."] ++
              (if extractHostnames doc = [] then ["[INFO] No hostnames found."] else []),
            extractHostnames doc,
            ["[INFO] Cache file " ++ name ++ " deleted successfully."],
            ?_, ?_, ?_, ?_, ?_, ?_, ?_, ?_⟩
          · intro s out trace
            by_cases hhs : extractHostnames doc = []
            · cases s <;>
                simp [processCached, loadCachedHTML, osRemove, printAll, hfs, hop, hpa, hrm, hhs]
            · cases s <;>
                simp [processCached, loadCachedHTML, osRemove, printAll, hfs, hop, hpa, hrm, hhs]
          · simp [calls]
          · simp [fetchAttempts]
          · simp [fileNames]
          · simp [extracted]
          · exact ⟨doc, rfl⟩
          · intro m hm
            simp only [List.mem_append, List.mem_cons, List.mem_singleton, List.not_mem_nil,
              or_false] at hm
            rcases hm with (((rfl | rfl) | hm) | rfl)
            · simp [String.data_append, b1]
            · decide
            · split at hm
              · simp only [List.mem_singleton] at hm
                subst hm
                decide
              · simp at hm
            · simp only [String.data_append, List.mem_append]
              exact Or.inl (Or.inl (by decide))
          · intro hn _ m hm
            simp only [noLineFeed] at hn ⊢
            simp only [List.mem_append, List.mem_cons, List.mem_singleton, List.not_mem_nil,
              or_false] at hm
            rcases hm with (((rfl | rfl) | hm) | rfl)
            · simp [String.data_append, n1, n3, hn]
            · decide
            · split at hm
              · simp only [List.mem_singleton] at hm
                subst hm
                decide
              · simp at hm
            · have n6 : '\n' ∉ "[INFO] Cache file ".data := by decide
              have n7 : '\n' ∉ " deleted successfully.".data := by decide
              simp [String.data_append, n6, n7, hn]

theorem noLineFeed_cacheName (cidr : String) (h : noLineFeed cidr) :
    noLineFeed ("cache_" ++ ReplaceAll cidr '/' '_' ++ ".html") := by
  have n1 : '\n' ∉ "cache_".data := by decide
  have n2 : '\n' ∉ ".html".data := by decide
  simp only [noLineFeed] at h ⊢
  simp only [String.data_append, List.mem_append, ReplaceAll, List.mem_map, not_or]
  refine ⟨⟨n1, ?_⟩, n2⟩
  rintro ⟨c, hc, hc'⟩
  split at hc'
  · exact absurd hc' (by decide)
  · exact h (hc' ▸ hc)

/-- The shape of every run of `fetchAndCacheHTML` from a given file system: the
result, the final file system and the events do not depend on `silentMode`; the
only events after the fetch event are writes of the cache file name. -/
theorem fetch_master (o : Outcomes) (ip : String) (fs : FileSystem) :
    ∃ (r : Except String String) (fs' : FileSystem) (evs : List Event) (msgs : List String),
      (∀ (s : Bool) (out : List String) (trace : List Event),
        fetchAndCacheHTML o s ip ⟨fs, out, trace⟩ =
          (r, ⟨fs', out ++ (if s then [] else "[INFO] Fetching page from the web..." :: msgs),
            trace ++ .fetch ip :: evs⟩)) ∧
      (∀ e ∈ evs, e = .write ("cache_" ++ ReplaceAll ip '/' '_' ++ ".html")) ∧
      (∀ m ∈ msgs, '[' ∈ m.data) ∧
      (noLineFeed ip → SingleLineErrors o →
        (∀ m ∈ msgs, noLineFeed m) ∧ ∀ e, r = .error e → noLineFeed e) ∧
      (∀ n, r = .ok n → n = "cache_" ++ ReplaceAll ip '/' '_' ++ ".html" ∧
        evs = [.write n] ∧ ∃ body, fs' = fun k => if k = n then some body else fs k) := by
  cases hh : o.http with
  | requestError e =>
    refine ⟨.error e, fs, [], [], ?_, by simp, by simp, ?_, by simp⟩
    · intro s out trace
      cases s <;> simp [fetchAndCacheHTML, hh, logMessage, println, record]
    · intro _ ho
      refine ⟨by simp, ?_⟩
      intro e' he'
      cases he'
      exact ho.1 e (by simp [hh, HttpResult.errorTexts])
  | transportError e =>
    refine ⟨.error e, fs, [], [], ?_, by simp, by simp, ?_, by simp⟩
    · intro s out trace
      cases s <;> simp [fetchAndCacheHTML, hh, logMessage, println, record]
    · intro _ ho
      refine ⟨by simp, ?_⟩
      intro e' he'
      cases he'
      exact ho.1 e (by simp [hh, HttpResult.errorTexts])
  | response code status body =>
    by_cases hc : code = StatusOK
    · cases body with
      | error e =>
        refine ⟨.error e, fs, [], [], ?_, by simp, by simp, ?_, by simp⟩
        · intro s out trace
          cases s <;> simp [fetchAndCacheHTML, hh, hc, logMessage, println, record]
        · intro _ ho
          refine ⟨by simp, ?_⟩
          intro e' he'
          cases he'
          exact ho.1 e (by simp [hh, HttpResult.errorTexts])
      | ok body =>
        cases hw : o.writeFile with
        | ok =>
          refine ⟨.ok ("cache_" ++ ReplaceAll ip '/' '_' ++ ".html"),
            fun k => if k = "cache_" ++ ReplaceAll ip '/' '_' ++ ".html" then some body else fs k,
            [.write ("cache_" ++ ReplaceAll ip '/' '_' ++ ".html")],
            ["[INFO] Page cached successfully: " ++
              ("cache_" ++ ReplaceAll ip '/' '_' ++ ".html")], ?_, by simp, ?_, ?_, ?_⟩
          · intro s out trace
            cases s <;> simp [fetchAndCacheHTML, hh, hc, hw, logMessage, println, record]
          · intro m hm
            simp only [List.mem_singleton] at hm
            subst hm
            simp only [String.data_append, List.mem_append]
            exact Or.inl (by decide)
          · intro hn _
            refine ⟨?_, by simp⟩
            intro m hm
            simp only [List.mem_singleton] at hm
            subst hm
            have n1 : '\n' ∉ "[INFO] Page cached successfully: ".data := by decide
            have n2 := noLineFeed_cacheName ip hn
            simp only [noLineFeed] at n2 ⊢
            rw [String.data_append, List.mem_append, not_or]
            exact ⟨n1, n2⟩
          · intro n hn
            cases hn
            exact ⟨rfl, rfl, body, rfl⟩
        | openFailed e =>
          refine ⟨.error e, fs, [.write ("cache_" ++ ReplaceAll ip '/' '_' ++ ".html")], [],
            ?_, by simp, by simp, ?_, by simp⟩
          · intro s out trace
            cases s <;> simp [fetchAndCacheHTML, hh, hc, hw, logMessage, println, record]
          · intro _ ho
            refine ⟨by simp, ?_⟩
            intro e' he'
            cases he'
            exact ho.2.1 e (by simp [hw, WriteResult.errorTexts])
        | writeFailed e written =>
          refine ⟨.error e,
            fun k => if k = "cache_" ++ ReplaceAll ip '/' '_' ++ ".html" then some written
              else fs k,
            [.write ("cache_" ++ ReplaceAll ip '/' '_' ++ ".html")], [],
            ?_, by simp, by simp, ?_, by simp⟩
          · intro s out trace
            cases s <;> simp [fetchAndCacheHTML, hh, hc, hw, logMessage, println, record]
          · intro _ ho
            refine ⟨by simp, ?_⟩
            intro e' he'
            cases he'
            exact ho.2.1 e (by simp [hw, WriteResult.errorTexts])
    · refine ⟨.error ("failed to fetch IP info for " ++ ip ++ ": " ++ status), fs, [], [],
        ?_, by simp, by simp, ?_, by simp⟩
      · intro s out trace
        cases s <;> simp [fetchAndCacheHTML, hh, hc, logMessage, println, record]
      · intro hn ho
        refine ⟨by simp, ?_⟩
        intro e' he'
        cases he'
        have hs : noLineFeed status := ho.1 status (by cases body <;> simp [hh, HttpResult.errorTexts])
        have n1 : '\n' ∉ "failed to fetch IP info for ".data := by decide
        have n2 : '\n' ∉ ": ".data := by decide
        simp only [noLineFeed] at hn hs ⊢
        simp [String.data_append, n1, n2, hn, hs]


theorem writes_only {name : String} :
    ∀ (evs : List Event), (∀ e ∈ evs, e = .write name) →
      calls evs = [] ∧ fetchAttempts evs = 0 ∧ extracted evs = [] ∧
        ∀ n ∈ fileNames evs, n = name := by
  intro evs
  induction evs with
  | nil => intro _; simp [calls, fetchAttempts, extracted, fileNames]
  | cons e evs ih =>
    intro h
    have he := h e (List.mem_cons_self _ _)
    obtain ⟨h1, h2, h3, h4⟩ := ih fun e' he' => h e' (List.mem_cons_of_mem _ he')
    subst he
    simp only [calls, fetchAttempts, extracted, fileNames] at h1 h2 h3 h4 ⊢
    refine ⟨by simpa using h1, by simpa using h2, by simpa using h3, ?_⟩
    intro n hn
    simp only [List.filterMap_cons, List.mem_cons] at hn
    rcases hn with rfl | hn
    · rfl
    · exact h4 n hn

/-- The shape of every run of `handleCIDR` from a given file system, as for
`processCached`, with the facts about its events that the claims need. -/
theorem handleCIDR_master (o : Outcomes) (cidr : String) (fs : FileSystem) :
    ∃ (fs' : FileSystem) (evs : List Event) (pre hs post : List String),
      (∀ (s : Bool) (out : List String) (trace : List Event),
        (handleCIDR o s cidr ⟨fs, out, trace⟩).fs = fs' ∧
        (handleCIDR o s cidr ⟨fs, out, trace⟩).out =
          out ++ (if s then hs else pre ++ hs ++ post) ∧
        (handleCIDR o s cidr ⟨fs, out, trace⟩).trace = trace ++ evs) ∧
      calls evs = [cidr] ∧
      fetchAttempts evs =
        (if IsNotExist (osStat o ("cache_" ++ ReplaceAll cidr '/' '_' ++ ".html") fs) then 1
          else 0) ∧
      (∀ n ∈ fileNames evs, n = "cache_" ++ ReplaceAll cidr '/' '_' ++ ".html") ∧
      Event.stat ("cache_" ++ ReplaceAll cidr '/' '_' ++ ".html") ∈ evs ∧
      extracted evs = hs ∧ (∃ doc, hs = extractHostnames doc) ∧
      (∀ m ∈ pre ++ post, '[' ∈ m.data) ∧
      (noLineFeed cidr → SingleLineErrors o → ∀ m ∈ pre ++ post, noLineFeed m) := by
  have b1 : '[' ∈ "[INFO] Processing CIDR: ".data := by decide
  have b2 : '[' ∈ "[INFO] Fetching page from the web...".data := by decide
  have b3 : '[' ∈ "[ERROR] Failed to fetch and cache page for ".data := by decide
  have n1 : '\n' ∉ "[INFO] Processing CIDR: ".data := by decide
  have n2 : '\n' ∉ "[INFO] Fetching page from the web...".data := by decide
  have n3 : '\n' ∉ "[ERROR] Failed to fetch and cache page for ".data := by decide
  have n4 : '\n' ∉ ": ".data := by decide
  cases hst : o.stat with
  | some serr =>
    obtain ⟨fs', evs, pre, hs, post, hrun, hcalls, hfetch, hnames, hext, hdoc, hb, hnl⟩ :=
      processCached_master o ("cache_" ++ ReplaceAll cidr '/' '_' ++ ".html") fs
    refine ⟨fs', .call cidr :: .stat ("cache_" ++ ReplaceAll cidr '/' '_' ++ ".html") :: evs,
      ("[INFO] Processing CIDR: " ++ cidr) :: pre, hs, post, ?_, ?_, ?_, ?_, ?_, ?_, hdoc, ?_, ?_⟩
    · intro s out trace
      cases s <;> simp [handleCIDR, logMessage, println, record, osStat, IsNotExist, hst, hrun]
    · simpa [calls] using hcalls
    · simpa [fetchAttempts, osStat, IsNotExist, hst] using hfetch
    · intro n hn
      simp only [fileNames, List.filterMap_cons, List.mem_cons] at hn
      rcases hn with rfl | hn
      · rfl
      · exact hnames n hn
    · simp
    · simpa [extracted] using hext
    · intro m hm
      simp only [List.cons_append, List.mem_cons] at hm
      rcases hm with rfl | hm
      · simp [String.data_append, b1]
      · exact hb m hm
    · intro hn ho m hm
      simp only [List.cons_append, List.mem_cons] at hm
      rcases hm with rfl | hm
      · simp only [noLineFeed] at hn ⊢
        simp [String.data_append, n1, hn]
      · exact hnl (noLineFeed_cacheName cidr hn) ho m hm
  | none =>
    cases hfs : fs ("cache_" ++ ReplaceAll cidr '/' '_' ++ ".html") with
    | some content =>
      obtain ⟨fs', evs, pre, hs, post, hrun, hcalls, hfetch, hnames, hext, hdoc, hb, hnl⟩ :=
        processCached_master o ("cache_" ++ ReplaceAll cidr '/' '_' ++ ".html") fs
      refine ⟨fs', .call cidr :: .stat ("cache_" ++ ReplaceAll cidr '/' '_' ++ ".html") :: evs,
        ("[INFO] Processing CIDR: " ++ cidr) :: pre, hs, post, ?_, ?_, ?_, ?_, ?_, ?_, hdoc, ?_, ?_⟩
      · intro s out trace
        cases s <;> simp [handleCIDR, logMessage, println, record, osStat, IsNotExist, hst, hfs, hrun]
      · simpa [calls] using hcalls
      · simpa [fetchAttempts, osStat, IsNotExist, hst, hfs] using hfetch
      · intro n hn
        simp only [fileNames, List.filterMap_cons, List.mem_cons] at hn
        rcases hn with rfl | hn
        · rfl
        · exact hnames n hn
      · simp
      · simpa [extracted] using hext
      · intro m hm
        simp only [List.cons_append, List.mem_cons] at hm
        rcases hm with rfl | hm
        · simp [String.data_append, b1]
        · exact hb m hm
      · intro hn ho m hm
        simp only [List.cons_append, List.mem_cons] at hm
        rcases hm with rfl | hm
        · simp only [noLineFeed] at hn ⊢
          simp [String.data_append, n1, hn]
        · exact hnl (noLineFeed_cacheName cidr hn) ho m hm
    | none =>
      obtain ⟨r, fs₁, evs₁, msgs, hfetch, hev, hb₁, hnl₁, hok⟩ := fetch_master o cidr fs
      cases r with
      | error e =>
        refine ⟨fs₁,
          .call cidr :: .stat ("cache_" ++ ReplaceAll cidr '/' '_' ++ ".html") ::
            .fetch cidr :: evs₁,
          ("[INFO] Processing CIDR: " ++ cidr) :: "[INFO] Fetching page from the web..." ::
            (msgs ++ ["[ERROR] Failed to fetch and cache page for " ++ cidr ++ ": " ++ e]),
          [], [], ?_, ?_, ?_, ?_, ?_, ?_, ⟨[], rfl⟩, ?_, ?_⟩
        · intro s out trace
          cases s <;> simp [handleCIDR, logMessage, println, record, osStat, IsNotExist, hst, hfs, hfetch]
        · simpa [calls] using (writes_only evs₁ hev).1
        · simpa [fetchAttempts, osStat, IsNotExist, hst, hfs] using (writes_only evs₁ hev).2.1
        · intro n hn
          simp only [fileNames, List.filterMap_cons, List.mem_cons] at hn
          rcases hn with rfl | hn
          · rfl
          · exact (writes_only evs₁ hev).2.2.2 n hn
        · simp
        · simpa [extracted] using (writes_only evs₁ hev).2.2.1
        · intro m hm
          simp only [List.append_nil, List.mem_cons, List.mem_append, List.mem_singleton,
            List.not_mem_nil, or_false] at hm
          rcases hm with rfl | rfl | hm | rfl
          · simp [String.data_append, b1]
          · exact b2
          · exact hb₁ m hm
          · simp [String.data_append, b3]
        · intro hn ho m hm
          obtain ⟨hmsgs, herr⟩ := hnl₁ hn ho
          have he := herr e rfl
          simp only [List.append_nil, List.mem_cons, List.mem_append, List.mem_singleton,
            List.not_mem_nil, or_false] at hm
          rcases hm with rfl | rfl | hm | rfl
          · simp only [noLineFeed] at hn ⊢
            simp [String.data_append, n1, hn]
          · exact n2
          · exact hmsgs m hm
          · simp only [noLineFeed] at hn he ⊢
            simp [String.data_append, n3, n4, hn, he]
      | ok n =>
        obtain ⟨rfl, rfl, body, rfl⟩ := hok n rfl
        obtain ⟨fs', evs, pre, hs, post, hrun, hcalls, hfetch', hnames, hext, hdoc, hb, hnl⟩ :=
          processCached_master o ("cache_" ++ ReplaceAll cidr '/' '_' ++ ".html")
            (fun k => if k = "cache_" ++ ReplaceAll cidr '/' '_' ++ ".html" then some body
              else fs k)
        refine ⟨fs',
          .call cidr :: .stat ("cache_" ++ ReplaceAll cidr '/' '_' ++ ".html") ::
            .fetch cidr :: .write ("cache_" ++ ReplaceAll cidr '/' '_' ++ ".html") :: evs,
          ("[INFO] Processing CIDR: " ++ cidr) :: "[INFO] Fetching page from the web..." ::
            (msgs ++ pre),
          hs, post, ?_, ?_, ?_, ?_, ?_, ?_, hdoc, ?_, ?_⟩
        · intro s out trace
          cases s <;> simp [handleCIDR, logMessage, println, record, osStat, IsNotExist, hst, hfs, hfetch, hrun]
        · simpa [calls] using hcalls
        · simpa [fetchAttempts, osStat, IsNotExist, hst, hfs] using hfetch'
        · intro n hn
          simp only [fileNames, List.filterMap_cons, List.mem_cons] at hn
          rcases hn with rfl | rfl | hn
          · rfl
          · rfl
          · exact hnames n hn
        · simp
        · simpa [extracted] using hext
        · intro m hm
          simp only [List.cons_append, List.mem_cons, List.mem_append, List.append_assoc] at hm
          rcases hm with rfl | rfl | hm | hm | hm
          · simp [String.data_append, b1]
          · exact b2
          · exact hb₁ m hm
          · exact hb m (List.mem_append_left _ hm)
          · exact hb m (List.mem_append_right _ hm)
        · intro hn ho m hm
          obtain ⟨hmsgs, -⟩ := hnl₁ hn ho
          simp only [List.cons_append, List.mem_cons, List.mem_append, List.append_assoc] at hm
          rcases hm with rfl | rfl | hm | hm | hm
          · simp only [noLineFeed] at hn ⊢
            simp [String.data_append, n1, hn]
          · exact n2
          · exact hmsgs m hm
          · exact hnl (noLineFeed_cacheName cidr hn) ho m (List.mem_append_left _ hm)
          · exact hnl (noLineFeed_cacheName cidr hn) ho m (List.mem_append_right _ hm)

  /-! ## Host names: characters, lines, extraction -/

theorem mem_intercalate {sep : List Char} {c : Char} :
    ∀ (runs : List (List Char)), c ∈ List.intercalate sep runs →
      c ∈ sep ∨ ∃ r ∈ runs, c ∈ r := by
  intro runs h
  cases runs with
  | nil => simp [List.intercalate] at h
  | cons r₀ rs =>
    rw [intercalate_cons] at h
    simp only [List.mem_append, List.mem_flatten, List.mem_map] at h
    rcases h with h | ⟨l, ⟨r, hr, rfl⟩, hc⟩
    · exact Or.inr ⟨r₀, List.mem_cons_self _ _, h⟩
    · rcases List.mem_append.1 hc with hc | hc
      · exact Or.inl hc
      · exact Or.inr ⟨r, List.mem_cons_of_mem _ hr, hc⟩

/-- Every character of a text of the host-name shape is an ASCII letter or
digit, a hyphen or a dot. -/
theorem shape_chars {text : List Char} (h : HostnameShape text) :
    ∀ c ∈ text, isAsciiAlnum c ∨ c = '-' ∨ c = '.' := by
  obtain ⟨labels, final, -, hlabels, hfinal, rfl⟩ := h
  intro c hc
  simp only [List.mem_append, List.mem_flatten, List.mem_map] at hc
  rcases hc with ⟨l, ⟨lab, hlab, rfl⟩, hc⟩ | hc
  · rcases List.mem_append.1 hc with hc | hc
    · obtain ⟨runs, -, hruns, rfl⟩ := hlabels lab hlab
      rcases mem_intercalate runs hc with hc | ⟨r, hr, hc⟩
      · exact Or.inr (Or.inl (by simpa using hc))
      · exact Or.inl ((hruns r hr).2 c hc)
    · exact Or.inr (Or.inr (by simpa using hc))
  · exact Or.inl (Or.inl (hfinal.2 c hc))

theorem valid_no_bracket {text : String} (h : isValidHostname text = true) :
    '[' ∉ text.data := by
  intro hc
  rcases shape_chars ((validHostname_shape text).1 h) _ hc with h | h | h
  · revert h
    simp only [isAsciiAlnum, isAsciiLetter]
    decide
  · exact absurd h (by decide)
  · exact absurd h (by decide)

theorem valid_noLineFeed {text : String} (h : isValidHostname text = true) :
    noLineFeed text := by
  intro hc
  rcases shape_chars ((validHostname_shape text).1 h) _ hc with h | h | h
  · revert h
    simp only [isAsciiAlnum, isAsciiLetter]
    decide
  · exact absurd h (by decide)
  · exact absurd h (by decide)

theorem bracket_not_valid {m : String} (h : '[' ∈ m.data) : isValidHostname m = false := by
  cases hv : isValidHostname m with
  | false => rfl
  | true => exact absurd h (valid_no_bracket hv)

theorem extractHostnames_foldl (doc : Document) (acc : List String) :
    doc.foldl (fun hostnames cell =>
      let text := TrimSpace cell
      if text ≠ "" && isValidHostname text then hostnames ++ [text] else hostnames) acc =
      acc ++ (doc.map TrimSpace).filter isValidHostname := by
  induction doc generalizing acc with
  | nil => simp
  | cons cell doc ih =>
    simp only [List.foldl_cons, List.map_cons]
    rw [ih]
    by_cases hv : isValidHostname (TrimSpace cell) = true
    · have hne : TrimSpace cell ≠ "" := by
        intro he
        rw [he] at hv
        exact absurd hv (by decide)
      simp [hv, hne]
    · simp [hv]

/-- The loop of `extractHostnames` is a filter over the trimmed cells. -/
theorem extractHostnames_eq (doc : Document) :
    extractHostnames doc = (doc.map TrimSpace).filter isValidHostname := by
  simp only [extractHostnames]
  rw [extractHostnames_foldl]
  simp

theorem extractHostnames_valid (doc : Document) :
    ∀ h ∈ extractHostnames doc, isValidHostname h = true := by
  intro h hh
  rw [extractHostnames_eq] at hh
  exact (List.mem_filter.1 hh).2

theorem linesOf_line (m rest : List Char) (hm : '\n' ∉ m) :
    linesOf (m ++ '\n' :: rest) = m :: linesOf rest := by
  induction m with
  | nil => simp [linesOf]
  | cons c m ih =>
    have hc : c ≠ '\n' := fun h => hm (by simp [h])
    have hm' : '\n' ∉ m := fun h => hm (List.mem_cons_of_mem _ h)
    simp [linesOf, hc, ih hm']

/-- When no printed message contains a line feed, the lines on standard output
are the messages. -/
theorem stdoutLines_single (out : List String) (h : ∀ m ∈ out, noLineFeed m) :
    stdoutLines out = out := by
  induction out with
  | nil => rfl
  | cons m out ih =>
    have hm := h m (List.mem_cons_self _ _)
    have ih' := ih fun m' hm' => h m' (List.mem_cons_of_mem _ hm')
    simp only [stdoutLines, stdoutText] at ih' ⊢
    simp only [List.flatMap_cons, List.append_assoc, List.singleton_append]
    rw [linesOf_line _ _ hm, List.map_cons, ih']

/-! ## The claims -/

/-- C1: `isValidHostname text` is true exactly when `text` is one or more labels,
each followed by a dot, then a final label of at least two ASCII letters, where
a non-final label is one or more non-empty runs of ASCII letters and digits
joined by single hyphens, with nothing before or after. -/
theorem isValidHostname_iff (text : String) :
    isValidHostname text = true ↔ HostnameShape text.data :=
  validHostname_shape text

/-- C2: `extractHostnames` returns, in row order, exactly the trimmed second-cell
texts that satisfy `isValidHostname`; a row whose second cell is `example.com`
contributes `example.com`, and a row whose second cell is `not a hostname!`
contributes nothing. -/
theorem extractHostnames_spec (doc : Document) :
    extractHostnames doc = (doc.map TrimSpace).filter isValidHostname ∧
    (∀ before after : Document,
      extractHostnames (before ++ "example.com" :: after) =
        extractHostnames before ++ "example.com" :: extractHostnames after) ∧
    (∀ before after : Document,
      extractHostnames (before ++ "not a hostname!" :: after) =
        extractHostnames before ++ extractHostnames after) := by
  have t1 : TrimSpace "example.com" = "example.com" := by decide
  have v1 : isValidHostname "example.com" = true := by decide
  have v2 : isValidHostname (TrimSpace "not a hostname!") = false := by decide
  refine ⟨extractHostnames_eq doc, ?_, ?_⟩
  · intro before after
    simp [extractHostnames_eq, t1, v1]
  · intro before after
    simp [extractHostnames_eq, v2]

/-- C3, as the claim states it, fails for an identifier of 300 characters: no
cache file exists, `os.Stat` fails with "file name too long", which is not a
"not exist" error, and `handleCIDR` makes no fetch attempt. -/
theorem fetchAttempts_counterexample :
    ¬ (emptyFS ("cache_" ++ ReplaceAll longIdentifier '/' '_' ++ ".html") = none →
      fetchAttempts
        (handleCIDR longNameOutcomes false longIdentifier (World.start emptyFS)).trace = 1) := by
  decide

/-- C3, amended: one run of `handleCIDR` makes exactly one fetch attempt when
`os.Stat` reports that the cache file of the identifier does not exist, and
none otherwise (the file exists, or `os.Stat` fails with another error). -/
theorem handleCIDR_fetchAttempts (o : Outcomes) (silentMode : Bool) (cidr : String)
    (w : World) :
    fetchAttempts (handleCIDR o silentMode cidr w).trace =
      fetchAttempts w.trace +
        (if IsNotExist (osStat o ("cache_" ++ ReplaceAll cidr '/' '_' ++ ".html") w.fs) then 1
          else 0) := by
  obtain ⟨fs, out, trace⟩ := w
  obtain ⟨fs', evs, pre, hs, post, hrun, -, hfetch, -⟩ := handleCIDR_master o cidr fs
  rw [(hrun silentMode out trace).2.2]
  simp only [fetchAttempts] at hfetch ⊢
  rw [List.countP_append, hfetch]

/-- C3, amended, at concrete runs: one fetch attempt for `1.2.3.0/24` without a
cache file, none with the cache file, none when `os.Stat` fails otherwise. -/
theorem handleCIDR_fetchAttempts_witness :
    fetchAttempts (handleCIDR sampleOutcomes false "1.2.3.0/24" (World.start emptyFS)).trace =
      0 + (if IsNotExist (osStat sampleOutcomes
        ("cache_" ++ ReplaceAll "1.2.3.0/24" '/' '_' ++ ".html") emptyFS) then 1 else 0) ∧
    fetchAttempts (handleCIDR sampleOutcomes false "1.2.3.0/24" (World.start emptyFS)).trace = 1 ∧
    fetchAttempts (handleCIDR sampleOutcomes false "1.2.3.0/24" (World.start cachedFS)).trace = 0 ∧
    fetchAttempts
      (handleCIDR longNameOutcomes false longIdentifier (World.start emptyFS)).trace = 0 :=
  ⟨handleCIDR_fetchAttempts sampleOutcomes false "1.2.3.0/24" (World.start emptyFS),
    by decide, by decide, by decide⟩

/-- C4: at an identifier whose cache file exists but cannot be opened,
`handleCIDR` returns after the load error: the cache file is still there, no
deletion was attempted and no deletion message was printed. -/
theorem handleCIDR_load_failure_leaves_cache :
    (handleCIDR unreadableOutcomes false "1.2.3.0/24" (World.start cachedFS)).fs
        "cache_1.2.3.0_24.html" = some "<html></html>" ∧
    Event.remove "cache_1.2.3.0_24.html" ∉
      (handleCIDR unreadableOutcomes false "1.2.3.0/24" (World.start cachedFS)).trace ∧
    (handleCIDR unreadableOutcomes false "1.2.3.0/24" (World.start cachedFS)).out =
      ["[INFO] Processing CIDR: 1.2.3.0/24",
        "[INFO] Loading cached page: cache_1.2.3.0_24.html...",
        "[ERROR] Failed to load cached page: open cache_1.2.3.0_24.html: permission denied"] := by
  decide

/-- A run of `handleCIDR` adds exactly one call event, for its identifier. -/
theorem handleCIDR_calls (o : Outcomes) (silentMode : Bool) (cidr : String) (w : World) :
    calls (handleCIDR o silentMode cidr w).trace = calls w.trace ++ [cidr] := by
  obtain ⟨fs, out, trace⟩ := w
  obtain ⟨fs', evs, pre, hs, post, hrun, hcalls, -⟩ := handleCIDR_master o cidr fs
  rw [(hrun silentMode out trace).2.2]
  simp only [calls] at hcalls ⊢
  rw [List.filterMap_append, hcalls]

theorem handleCIDRListLoop_calls (silentMode : Bool) (lines : List String) :
    ∀ (os : Nat → Outcomes) (w : World),
      calls (handleCIDRListLoop os silentMode lines w).trace =
        calls w.trace ++ (lines.map TrimSpace).filter fun l => l ≠ "" := by
  induction lines with
  | nil => intro os w; simp [handleCIDRListLoop]
  | cons line rest ih =>
    intro os w
    simp only [handleCIDRListLoop]
    rw [ih]
    by_cases h : TrimSpace line = ""
    · simp [h]
    · simp [h, handleCIDR_calls]

theorem handleStdinLoop_calls (silentMode : Bool) (lines : List String) :
    ∀ (os : Nat → Outcomes) (w : World),
      calls (handleStdinLoop os silentMode lines w).trace = calls w.trace ++ lines := by
  induction lines with
  | nil => intro os w; simp [handleStdinLoop]
  | cons line rest ih =>
    intro os w
    simp only [handleStdinLoop]
    rw [ih, handleCIDR_calls]
    simp

/-- The clean-up of `handleCIDR` where it is reached: when the cache file can be
loaded, it is removed afterwards, unless `os.Remove` fails, and then the last
message of a non-silent run reports the failure. -/
theorem processCached_cleanup (o : Outcomes) (silentMode : Bool) (name content : String)
    (doc : Document) (fs : FileSystem) (out : List String) (trace : List Event)
    (hfs : fs name = some content) (hopen : o.openFile = none)
    (hparse : o.parse content = .ok doc) :
    (o.remove = none → (processCached o silentMode name ⟨fs, out, trace⟩).fs name = none) ∧
    (∀ e, o.remove = some e →
      (processCached o silentMode name ⟨fs, out, trace⟩).fs name = some content ∧
      (processCached o false name ⟨fs, out, trace⟩).out.getLast? =
        some ("[ERROR] Failed to delete cache file " ++ name ++ ": " ++ e)) := by
  constructor
  · intro hrm
    by_cases hhs : extractHostnames doc = []
    · cases silentMode <;>
        simp [processCached, loadCachedHTML, osRemove, printAll, hfs, hopen, hparse, hrm, hhs]
    · cases silentMode <;>
        simp [processCached, loadCachedHTML, osRemove, printAll, hfs, hopen, hparse, hrm, hhs]
  · intro e hrm
    by_cases hhs : extractHostnames doc = []
    · cases silentMode <;>
        simp [processCached, loadCachedHTML, osRemove, printAll, hfs, hopen, hparse, hrm, hhs]
    · cases silentMode <;>
        simp [processCached, loadCachedHTML, osRemove, printAll, hfs, hopen, hparse, hrm, hhs] <;>
        exact List.getLast?_concat (_ :: _)

/-- C5: for every list of lines read from the file, `handleCIDRList` calls
`handleCIDR` once for each line that is not empty after trimming, with the
trimmed text, in file order, and never for a blank line, whatever the outcomes
of the runs are. -/
theorem handleCIDRList_calls (os : Nat → Outcomes) (silentMode : Bool) (filePath : String)
    (lines : List String) (err : Option String) (w : World) :
    calls (handleCIDRList os silentMode filePath (.ok ⟨lines, err⟩) w).trace =
      calls w.trace ++ (lines.map TrimSpace).filter fun l => l ≠ "" := by
  simp only [handleCIDRList]
  cases err <;> simp [handleCIDRListLoop_calls]

/-- C9: for every list of lines on standard input, `handleStdin` calls
`handleCIDR` once per line, in order, with the text of the line as it is; a
blank line is processed as the empty identifier, which the file mode skips. -/
theorem handleStdin_calls (os : Nat → Outcomes) (silentMode : Bool) (filePath : String)
    (lines : List String) (err : Option String) (w : World) :
    calls (handleStdin os silentMode ⟨lines, err⟩ w).trace = calls w.trace ++ lines ∧
    calls (handleStdin os silentMode ⟨[""], err⟩ w).trace = calls w.trace ++ [""] ∧
    calls (handleCIDRList os silentMode filePath (.ok ⟨[""], err⟩) w).trace =
      calls w.trace := by
  have t : TrimSpace "" = "" := by decide
  refine ⟨?_, ?_, ?_⟩
  · simp only [handleStdin]
    cases err <;> simp [handleStdinLoop_calls]
  · simp only [handleStdin]
    cases err <;> simp [handleStdinLoop_calls]
  · simp only [handleCIDRList]
    cases err <;> simp [handleCIDRListLoop_calls, t]

/-- C7: the name that `handleCIDR` checks and every name that it or
`fetchAndCacheHTML` writes, loads, removes or returns is `cache_` followed by
the identifier with every `/` replaced by `_`, followed by `.html`; the name
contains no `/`. -/
theorem cacheFileName_agrees (o : Outcomes) (silentMode : Bool) (cidr : String)
    (fs : FileSystem) :
    Event.stat ("cache_" ++ ReplaceAll cidr '/' '_' ++ ".html") ∈
      (handleCIDR o silentMode cidr (World.start fs)).trace ∧
    (∀ n ∈ fileNames (handleCIDR o silentMode cidr (World.start fs)).trace,
      n = "cache_" ++ ReplaceAll cidr '/' '_' ++ ".html") ∧
    (∀ n ∈ fileNames (fetchAndCacheHTML o silentMode cidr (World.start fs)).2.trace,
      n = "cache_" ++ ReplaceAll cidr '/' '_' ++ ".html") ∧
    (∀ n, (fetchAndCacheHTML o silentMode cidr (World.start fs)).1 = .ok n →
      n = "cache_" ++ ReplaceAll cidr '/' '_' ++ ".html" ∧
      Event.write n ∈ (fetchAndCacheHTML o silentMode cidr (World.start fs)).2.trace ∧
      ((fetchAndCacheHTML o silentMode cidr (World.start fs)).2.fs n).isSome = true) ∧
    '/' ∉ ("cache_" ++ ReplaceAll cidr '/' '_' ++ ".html").data := by
  obtain ⟨fs', evs, pre, hs, post, hrun, -, -, hnames, hstat, -⟩ := handleCIDR_master o cidr fs
  obtain ⟨r, fs₁, evs₁, msgs, hfetch, hev, -, -, hok⟩ := fetch_master o cidr fs
  have htrace := (hrun silentMode [] []).2.2
  have hf := hfetch silentMode [] []
  simp only [World.start]
  rw [htrace, hf]
  simp only [List.nil_append]
  refine ⟨hstat, hnames, ?_, ?_, ?_⟩
  · intro n hn
    simp only [fileNames, List.filterMap_cons, List.mem_filterMap] at hn
    obtain ⟨e, he, hn⟩ := hn
    rw [hev e he] at hn
    simpa using hn.symm
  · intro n hn
    obtain ⟨rfl, rfl, body, rfl⟩ := hok n hn
    simp
  · have s1 : '/' ∉ "cache_".data := by decide
    have s2 : '/' ∉ ".html".data := by decide
    simp only [String.data_append, List.mem_append, ReplaceAll, List.mem_map, not_or]
    refine ⟨⟨s1, ?_⟩, s2⟩
    rintro ⟨c, -, hc⟩
    split at hc
    · exact absurd hc (by decide)
    · rename_i hne
      exact hne hc

/-- C8: when the response has a status other than `http.StatusOK`,
`fetchAndCacheHTML` returns an error and writes no file, and the `handleCIDR`
that called it (`os.Stat` reported the cache file as not existing) logs the
error and returns: no load, no host name, no deletion. -/
theorem handleCIDR_non_success_status (o : Outcomes) (silentMode : Bool) (cidr : String)
    (fs : FileSystem) (statusCode : Nat) (status : String) (body : Except String String)
    (hmiss : osStat o ("cache_" ++ ReplaceAll cidr '/' '_' ++ ".html") fs = some .notExist)
    (hresp : o.http = .response statusCode status body)
    (hcode : statusCode ≠ StatusOK) :
    (∀ w : World,
      (fetchAndCacheHTML o silentMode cidr w).1 =
        .error ("failed to fetch IP info for " ++ cidr ++ ": " ++ status) ∧
      (fetchAndCacheHTML o silentMode cidr w).2.fs = w.fs ∧
      (fetchAndCacheHTML o silentMode cidr w).2.trace = w.trace ++ [.fetch cidr]) ∧
    (handleCIDR o silentMode cidr (World.start fs)).fs = fs ∧
    (handleCIDR o silentMode cidr (World.start fs)).trace =
      [.call cidr, .stat ("cache_" ++ ReplaceAll cidr '/' '_' ++ ".html"), .fetch cidr] ∧
    (handleCIDR o silentMode cidr (World.start fs)).out =
      (if silentMode then []
       else ["[INFO] Processing CIDR: " ++ cidr, "[INFO] Fetching page from the web...",
        "[ERROR] Failed to fetch and cache page for " ++ cidr ++ ": " ++
          ("failed to fetch IP info for " ++ cidr ++ ": " ++ status)]) := by
  refine ⟨?_, ?_, ?_, ?_⟩
  · intro w
    simp [fetchAndCacheHTML, hresp, hcode]
  · simp [handleCIDR, fetchAndCacheHTML, World.start, hmiss, IsNotExist, hresp, hcode]
  · simp [handleCIDR, fetchAndCacheHTML, World.start, hmiss, IsNotExist, hresp, hcode]
  · cases silentMode <;>
      simp [handleCIDR, fetchAndCacheHTML, World.start, hmiss, IsNotExist, hresp, hcode, logMessage]

/-- C8, at a concrete run: identifier `1.2.3.0/24`, no cache file, status 404. -/
theorem handleCIDR_non_success_status_witness :
    (osStat notFoundOutcomes ("cache_" ++ ReplaceAll "1.2.3.0/24" '/' '_' ++ ".html") emptyFS =
        some .notExist ∧
      notFoundOutcomes.http = .response 404 "404 Not Found" (.ok "") ∧ 404 ≠ StatusOK) ∧
    (handleCIDR notFoundOutcomes false "1.2.3.0/24" (World.start emptyFS)).fs = emptyFS ∧
    (handleCIDR notFoundOutcomes false "1.2.3.0/24" (World.start emptyFS)).trace =
      [.call "1.2.3.0/24", .stat ("cache_" ++ ReplaceAll "1.2.3.0/24" '/' '_' ++ ".html"),
        .fetch "1.2.3.0/24"] ∧
    (handleCIDR notFoundOutcomes false "1.2.3.0/24" (World.start emptyFS)).out =
      (if false then []
       else ["[INFO] Processing CIDR: " ++ "1.2.3.0/24", "[INFO] Fetching page from the web...",
        "[ERROR] Failed to fetch and cache page for " ++ "1.2.3.0/24" ++ ": " ++
          ("failed to fetch IP info for " ++ "1.2.3.0/24" ++ ": " ++ "404 Not Found")]) :=
  ⟨⟨rfl, rfl, by decide⟩,
    (handleCIDR_non_success_status notFoundOutcomes false "1.2.3.0/24" emptyFS 404
      "404 Not Found" (.ok "") rfl rfl (by decide)).2⟩

/-- C10, as the claim states it, fails for the identifier `x⏎a.bc`: the first
log message is split over two output lines, and the second one, `a.bc`, is a
valid host name that the silent run does not print. -/
theorem silent_filter_counterexample :
    ¬ ((stdoutLines (handleCIDR badURLOutcomes false "x\na.bc" (World.start emptyFS)).out).filter
        isValidHostname =
      stdoutLines (handleCIDR badURLOutcomes true "x\na.bc" (World.start emptyFS)).out) := by
  decide

/-- C10, amended: the silent flag changes neither the final file system nor the
events of a run of `handleCIDR`; the printed messages of the non-silent run
that are valid host names are the messages of the silent run; and when neither
the identifier nor an error text of the run contains a line feed, the lines of
the non-silent output that are valid host names are the lines of the silent
output. -/
theorem silent_only_affects_log_lines (o : Outcomes) (cidr : String) (fs : FileSystem) :
    (handleCIDR o false cidr (World.start fs)).fs =
      (handleCIDR o true cidr (World.start fs)).fs ∧
    (handleCIDR o false cidr (World.start fs)).trace =
      (handleCIDR o true cidr (World.start fs)).trace ∧
    (handleCIDR o false cidr (World.start fs)).out.filter isValidHostname =
      (handleCIDR o true cidr (World.start fs)).out ∧
    (noLineFeed cidr → SingleLineErrors o →
      (stdoutLines (handleCIDR o false cidr (World.start fs)).out).filter isValidHostname =
        stdoutLines (handleCIDR o true cidr (World.start fs)).out) := by
  obtain ⟨fs', evs, pre, hs, post, hrun, -, -, -, -, -, ⟨doc, hdoc⟩, hb, hnl⟩ :=
    handleCIDR_master o cidr fs
  obtain ⟨hfsT, houtT, htraceT⟩ := hrun true [] []
  obtain ⟨hfsF, houtF, htraceF⟩ := hrun false [] []
  have hvalid : ∀ h ∈ hs, isValidHostname h = true := by
    rw [hdoc]
    exact extractHostnames_valid doc
  have hpre : pre.filter isValidHostname = [] :=
    List.filter_eq_nil_iff.2 fun m hm => by
      simp [bracket_not_valid (hb m (List.mem_append_left _ hm))]
  have hpost : post.filter isValidHostname = [] :=
    List.filter_eq_nil_iff.2 fun m hm => by
      simp [bracket_not_valid (hb m (List.mem_append_right _ hm))]
  have hhs : hs.filter isValidHostname = hs := List.filter_eq_self.2 hvalid
  have hfilter : (pre ++ hs ++ post).filter isValidHostname = hs := by
    rw [List.filter_append, List.filter_append, hpre, hpost, hhs]
    simp
  simp only [World.start]
  rw [hfsT, hfsF, htraceT, htraceF, houtT, houtF]
  simp only [if_true, List.nil_append, Bool.false_eq_true, if_false]
  refine ⟨trivial, trivial, hfilter, ?_⟩
  intro hn ho
  have hsingle : ∀ m ∈ pre ++ hs ++ post, noLineFeed m := by
    intro m hm
    rcases List.mem_append.1 hm with hm | hm
    · rcases List.mem_append.1 hm with hm | hm
      · exact hnl hn ho m (List.mem_append_left _ hm)
      · exact valid_noLineFeed (hvalid m hm)
    · exact hnl hn ho m (List.mem_append_right _ hm)
  rw [stdoutLines_single _ hsingle,
    stdoutLines_single hs fun m hm => valid_noLineFeed (hvalid m hm), hfilter]

/-- C10, amended, at a concrete run: identifier `1.2.3.4`, no cache file, a page
with one host name. -/
theorem silent_only_affects_log_lines_witness :
    (noLineFeed "1.2.3.4" ∧ SingleLineErrors sampleOutcomes) ∧
    (stdoutLines (handleCIDR sampleOutcomes false "1.2.3.4" (World.start emptyFS)).out).filter
        isValidHostname =
      stdoutLines (handleCIDR sampleOutcomes true "1.2.3.4" (World.start emptyFS)).out := by
  have h₁ : noLineFeed "1.2.3.4" := by
    unfold noLineFeed
    decide
  have h₂ : SingleLineErrors sampleOutcomes := by
    refine ⟨?_, ?_, ?_, ?_, ?_⟩
    · intro e he
      simp only [sampleOutcomes, HttpResult.errorTexts, List.mem_singleton] at he
      subst he
      unfold noLineFeed
      decide
    · intro e he
      simp [sampleOutcomes, WriteResult.errorTexts] at he
    · intro e he
      simp [sampleOutcomes] at he
    · intro content e he
      simp [sampleOutcomes] at he
    · intro e he
      simp [sampleOutcomes] at he
  exact ⟨⟨h₁, h₂⟩, (silent_only_affects_log_lines sampleOutcomes "1.2.3.4" emptyFS).2.2.2 h₁ h₂⟩

/-- C7, at a concrete run: identifier `1.2.3.0/24`. -/
theorem cacheFileName_agrees_witness :
    Event.stat ("cache_" ++ ReplaceAll "1.2.3.0/24" '/' '_' ++ ".html") ∈
      (handleCIDR sampleOutcomes false "1.2.3.0/24" (World.start emptyFS)).trace ∧
    "cache_" ++ ReplaceAll "1.2.3.0/24" '/' '_' ++ ".html" = "cache_1.2.3.0_24.html" ∧
    '/' ∉ ("cache_" ++ ReplaceAll "1.2.3.0/24" '/' '_' ++ ".html").data :=
  ⟨(cacheFileName_agrees sampleOutcomes false "1.2.3.0/24" emptyFS).1, by decide,
    (cacheFileName_agrees sampleOutcomes false "1.2.3.0/24" emptyFS).2.2.2.2⟩

end HFinder
